import Mathlib

/-!
Shallow embedding of the Barbarian publish pipeline
(src/src/barbarians/barbarian.py) and of the conandata-cleaning hook
(src/src/barbarians/hooks/barbarian_clean_conandata_yml.py).

Modelling conventions:
* A directory is an association list from file name to content, kept in
  creation order; writing a file replaces an existing entry of the same name
  (`setEntry`), and `os.listdir` / dict lookup is `dictGet`.
* A gzip tar archive produced by `tarfile.open(.., 'w|gz')` is modelled by
  the wall-clock timestamp that tarfile's stream writer embeds in the gzip
  header (`int(time.time())`) together with the list of entries added
  (`FileData.tgzOf`), so archive bytes are a function of the creation time
  and the entries, and two archives of the same entries made at different
  times have different bytes; the MD5 primitive from hashlib is a parameter
  `md5 : FileData -> String` of the pipeline.
* The git commands issued through `Barbarian.exec` are modelled by a
  `GitState` (local branches, branches on the origin remote, fetched
  origin/* tracking refs, whether the repo has a HEAD commit); each branch
  ref carries the number of commits reachable from it.  The state-changing
  commands a run issues are recorded in a trace of `Effect` values.
* Failing Python calls become `Except` results: `UsageError` (caught at the
  top level, printed, `exit(1)`) is `UploadError.usage`, and the uncaught
  `FileNotFoundError` that `os.listdir` raises on a missing directory is
  `UploadError.fileNotFound`.
-/

/-- Decidable equality for `Except`, so the model can be evaluated on
concrete inputs. -/
instance {ε α : Type} [DecidableEq ε] [DecidableEq α] : DecidableEq (Except ε α)
  | Except.error e1, Except.error e2 =>
    if h : e1 = e2 then Decidable.isTrue (by rw [h])
    else Decidable.isFalse (by intro hh; cases hh; exact h rfl)
  | Except.error _, Except.ok _ => Decidable.isFalse (by intro hh; cases hh)
  | Except.ok _, Except.error _ => Decidable.isFalse (by intro hh; cases hh)
  | Except.ok a1, Except.ok a2 =>
    if h : a1 = a2 then Decidable.isTrue (by rw [h])
    else Decidable.isFalse (by intro hh; cases hh; exact h rfl)

namespace Barbarian

/-- Bytes of an ordinary file. -/
abbrev Bytes := List Nat

/-- Content of a file inside a directory: either plain bytes, or a gzip tar
archive identified by the creation timestamp its gzip header embeds (tarfile
writes `int(time.time())` there) and the list of entries added to it. -/
inductive FileData where
  | bytes (bs : Bytes)
  | tgzOf (mtime : Nat) (entries : List (String × Bytes))
deriving DecidableEq

/-- Lookup in an association list (Python dict lookup / file lookup inside a
directory): the first entry with the given key. -/
def dictGet {β : Type} (l : List (String × β)) (k : String) : Option β :=
  match l with
  | [] => none
  | p :: rest => if p.1 = k then some p.2 else dictGet rest k

/-- Write a file into a directory: replace the first entry with the same
name, or append a new entry at the end. -/
def setEntry {β : Type} (l : List (String × β)) (k : String) (v : β) :
    List (String × β) :=
  match l with
  | [] => [(k, v)]
  | p :: rest => if p.1 = k then (k, v) :: rest else p :: setEntry rest k v

/-- The conan export directory that `command_upload` reads: the files found
directly under `export/` (with their bytes) and, when that directory exists,
the entries under `export_source/`. -/
structure ExportState where
  exportFiles : List (String × Bytes)
  exportSource : Option (List (String × Bytes))
deriving DecidableEq

/-- One committed revision under `.barbarian_upload/<name>/<version>/<rev>/`:
the `files/` directory, the `snapshot.json` map (name to MD5 hex digest) and
the key list of the `files.json` "files" object. -/
structure RevisionRecord where
  files : List (String × FileData)
  snapshot : List (String × String)
  filesJson : List String
deriving DecidableEq

/-- `latest.json` at the `(name, version)` level. -/
structure Latest where
  revision : String
  time : String
deriving DecidableEq

/-- The `.barbarian_upload/<name>/<version>` subtree as committed on the
barbarian branch: revision directories plus the `latest.json` pointer. -/
structure PublishDirState where
  revisions : List (String × RevisionRecord)
  latest : Option Latest
deriving DecidableEq

/-- The git repository state visible to the program: local branches, the
branches existing on the `origin` remote, the `origin/*` tracking refs that
have been fetched locally, and whether the repo has a HEAD commit.  Every
branch ref carries the number of commits reachable from it. -/
structure GitState where
  localBranches : List (String × Nat)
  remoteBranches : List (String × Nat)
  remoteTracking : List (String × Nat)
  hasHead : Bool
deriving DecidableEq

/-- `have_branch`: `git branch --list <branch>` stripped, compared with the
branch name, i.e. whether the branch exists locally. -/
def have_branch (g : GitState) (branch : String) : Bool :=
  (dictGet g.localBranches branch).isSome

/-- State-changing or checked commands a run issues, in order. -/
inductive Effect where
  | remoteShow
  | fetchBarbarian
  | branchFromOrigin
  | orphanDance
  | worktreeAdd
  | gitAdd
  | gitStatus
  | gitCommit
  | gitPush
  | registerRecipe
  | worktreeRemove
deriving DecidableEq

/-- True for the effects that manipulate a branch or a working copy. -/
def branchOrWorktreeEffect : Effect → Bool
  | .remoteShow => false
  | .registerRecipe => false
  | .gitStatus => false
  | _ => true

/-- The `UsageError` reason raised when the orphan-branch dance cannot start
because the repository has no HEAD revision. -/
def noHeadMsg : String :=
  "[ERROR] Uploading requires the git repo to have a HEAD revision to create upload branch."

/-- The `UsageError` reason raised when `git remote show origin` fails. -/
def noOriginRemoteMsg : String :=
  "[ERROR] Upload requires an existing git remote origin to push new packages to. Please set a remote to push to with \"git remote add origin <url>\"."

/-- Best-effort `git fetch --quiet origin barbarian`: on success the
`origin/barbarian` tracking ref is updated; the `CalledProcessError` raised
when the remote has no such branch is swallowed, leaving the state as is. -/
def fetchOriginBarbarian (g : GitState) : GitState :=
  match dictGet g.remoteBranches "barbarian" with
  | some n => { g with remoteTracking := setEntry g.remoteTracking "barbarian" n }
  | none => g

/-- Best-effort `git branch --quiet barbarian origin/barbarian`: creates the
local branch from the tracking ref when that ref exists; the
`CalledProcessError` raised otherwise is swallowed. -/
def branchFromOriginBarbarian (g : GitState) : GitState :=
  match dictGet g.remoteTracking "barbarian" with
  | some n => { g with localBranches := setEntry g.localBranches "barbarian" n }
  | none => g

/-- `make_empty_branch`: if the branch is not local, optionally fetch it from
origin and optionally create a local branch from `origin/barbarian` (both
best-effort, failures swallowed); if it is still absent, do the git worktree
dance that creates a fresh orphan branch holding one empty commit, which
requires the repository to have a HEAD revision. -/
def make_empty_branch (g : GitState) (branch : String) :
    List Effect × Except String GitState :=
  if have_branch g branch then ([], Except.ok g)
  else
    let g2 := branchFromOriginBarbarian (fetchOriginBarbarian g)
    if have_branch g2 branch then
      ([Effect.fetchBarbarian, Effect.branchFromOrigin], Except.ok g2)
    else if g2.hasHead then
      ([Effect.fetchBarbarian, Effect.branchFromOrigin, Effect.orphanDance],
       Except.ok { g2 with localBranches := setEntry g2.localBranches branch 1 })
    else
      ([Effect.fetchBarbarian, Effect.branchFromOrigin], Except.error noHeadMsg)

/-- `make_barbarian_branch`: `make_empty_branch` on the `barbarian` branch. -/
def make_barbarian_branch (g : GitState) : List Effect × Except String GitState :=
  make_empty_branch g "barbarian"

/-- `copytree(export_dir/export, revision_pub_dir/files)`. -/
def copyExportToFiles (e : ExportState) : List (String × FileData) :=
  e.exportFiles.map fun p => (p.1, FileData.bytes p.2)

/-- The entries added to `conan_export.tgz`: `conandata.yml` exactly when
`os.path.exists(export/conandata.yml)` holds, nothing otherwise. -/
def conanExportEntries (e : ExportState) : List (String × Bytes) :=
  match dictGet e.exportFiles "conandata.yml" with
  | some cs => [("conandata.yml", cs)]
  | none => []

/-- Populate the revision's `files/` directory: copy `export/`, write
`conan_export.tgz`, then write `conan_sources.tgz` from
`os.listdir(export_source)` — which raises `FileNotFoundError` when the
`export_source/` directory does not exist (there is no existence check in
the source).  `tarTime` is the run's `int(time.time())`, which tarfile's
stream writer embeds in each archive's gzip header. -/
def buildFilesDir (tarTime : Nat) (e : ExportState) :
    Except String (List (String × FileData)) :=
  let copied := copyExportToFiles e
  let withExportTgz :=
    setEntry copied "conan_export.tgz" (FileData.tgzOf tarTime (conanExportEntries e))
  match e.exportSource with
  | none => Except.error "export_source"
  | some srcs =>
      Except.ok (setEntry withExportTgz "conan_sources.tgz" (FileData.tgzOf tarTime srcs))

/-- Generate `snapshot.json` (name to MD5 digest of the file's bytes) and
`files.json` key list by iterating over the `files/` directory listing. -/
def writeManifests (md5 : FileData → String) (filesDir : List (String × FileData)) :
    List (String × String) × List String :=
  (filesDir.map fun p => (p.1, md5 p.2), filesDir.map Prod.fst)

/-- Input handed to `command_upload` by the surrounding orchestration:
whether a git remote `origin` is configured, the git state, the export
directory, the exported revision read from `metadata.json`, the
`datetime.utcnow().isoformat()+"+0000"` timestamp of this run, and the
`int(time.time())` value the run's archive creation embeds in the gzip
headers. -/
structure UploadInput where
  hasOriginRemote : Bool
  git : GitState
  exportDir : ExportState
  revision : String
  now : String
  tarTime : Nat
deriving DecidableEq

/-- How an upload run fails: a `UsageError` (caught at the top level) or the
uncaught `FileNotFoundError` from `os.listdir` on a missing directory. -/
inductive UploadError where
  | usage (msg : String)
  | fileNotFound (path : String)
deriving DecidableEq

/-- The publish-directory state written by a successful upload: the revision
directory is removed wholesale and recreated from the fresh `files/`
contents and manifests, and `latest.json` is overwritten with the new
revision and this run's timestamp. -/
def commitRevision (md5 : FileData → String) (inp : UploadInput)
    (prior : PublishDirState) (filesDir : List (String × FileData)) :
    PublishDirState :=
  { revisions := setEntry prior.revisions inp.revision
      ⟨filesDir, (writeManifests md5 filesDir).1, (writeManifests md5 filesDir).2⟩,
    latest := some ⟨inp.revision, inp.now⟩ }

/-- `command_upload`: check that the `origin` remote exists (fatal
`UsageError` otherwise), ensure the barbarian branch, add the worktree,
populate the revision directory and manifests, update `latest.json`, commit,
push and register; the worktree removal of the `finally` block runs on both
the success path and the `FileNotFoundError` path. -/
def command_upload (md5 : FileData → String) (inp : UploadInput)
    (prior : PublishDirState) :
    List Effect × Except UploadError (PublishDirState × GitState) :=
  if inp.hasOriginRemote then
    match make_empty_branch inp.git "barbarian" with
    | (befx, Except.error m) =>
        (Effect.remoteShow :: befx, Except.error (UploadError.usage m))
    | (befx, Except.ok g) =>
        match buildFilesDir inp.tarTime inp.exportDir with
        | Except.error p =>
            (Effect.remoteShow :: befx ++ [Effect.worktreeAdd, Effect.worktreeRemove],
             Except.error (UploadError.fileNotFound p))
        | Except.ok filesDir =>
            (Effect.remoteShow :: befx ++
               [Effect.worktreeAdd, Effect.gitAdd, Effect.gitStatus, Effect.gitCommit,
                Effect.gitPush, Effect.registerRecipe, Effect.worktreeRemove],
             Except.ok (commitRevision md5 inp prior filesDir, g))
  else
    ([Effect.remoteShow], Except.error (UploadError.usage noOriginRemoteMsg))

/-- The top level of `Barbarian.__init__`: a `UsageError` is printed (its
reason) and the process exits with code 1; an uncaught exception also
terminates with a nonzero status but prints no reason through this handler;
otherwise exit code 0.  Result: (exit code, printed reason). -/
def upload_main (md5 : FileData → String) (inp : UploadInput)
    (prior : PublishDirState) : Nat × Option String :=
  match (command_upload md5 inp prior).2 with
  | Except.error (UploadError.usage m) => (1, some m)
  | Except.error (UploadError.fileNotFound _) => (1, none)
  | Except.ok _ => (0, none)

/-- Python `str.split(sep)` with no maxsplit, on character lists: splitting
the empty string yields one empty segment, and separators at the ends yield
empty segments, exactly as in Python. -/
def splitList (sep : Char) : List Char → List (List Char)
  | [] => [[]]
  | c :: rest =>
    let r := splitList sep rest
    if c = sep then [] :: r
    else match r with
      | s :: ss => (c :: s) :: ss
      | [] => [[c]]

/-- `split('@', 1)[1]` on character lists: everything after the first `@`,
or `none` when the reference holds no `@` (in Python that index raises
`IndexError`). -/
def afterFirstAtAux : List Char → Option (List Char)
  | [] => none
  | c :: rest => if c = '@' then some rest else afterFirstAtAux rest

/-- The `recipe_user_and_channel` setter: split the part after the first `@`
on `/`; user is segment 0 when nonempty else `"_"`, channel is segment 1
when present and nonempty else `"_"`. -/
def recipe_user_and_channel (reference : String) : Option (String × String) :=
  match afterFirstAtAux reference.toList with
  | none => none
  | some uc =>
    let recipe_uc := splitList '/' uc
    let recipe_u := match recipe_uc with
      | u :: _ => if 0 < u.length then String.mk u else "_"
      | [] => "_"
    let recipe_c := match recipe_uc with
      | _ :: c :: _ => if 0 < c.length then String.mk c else "_"
      | _ => "_"
    some (recipe_u, recipe_c)

/-- The `post_export` hook of barbarian_clean_conandata_yml.py, acting on the
parsed `conandata.yml`: `none` models a missing file (the hook returns
without writing); otherwise every top-level section is kept exactly when the
exported version is one of its keys, mapped to that single version with its
original value. -/
def post_export {α : Type} (version : String)
    (conandata : Option (List (String × List (String × α)))) :
    Option (List (String × List (String × α))) :=
  match conandata with
  | none => none
  | some input =>
    some (input.filterMap fun sec =>
      match dictGet sec.2 version with
      | some val => some (sec.1, [(version, val)])
      | none => none)

/-- Manifest completeness of one revision record: `snapshot.json` keys,
`files.json` keys and the `files/` directory listing all agree. -/
def manifestComplete (r : RevisionRecord) : Prop :=
  ∀ a, (a ∈ r.snapshot.map Prod.fst ↔ a ∈ r.filesJson) ∧
       (a ∈ r.filesJson ↔ a ∈ r.files.map Prod.fst)

/-- Digest correctness of one revision record with respect to the digest
primitive: every `snapshot.json` entry is the digest of that file's bytes. -/
def digestCorrect (md5 : FileData → String) (r : RevisionRecord) : Prop :=
  ∀ a, dictGet r.snapshot a = (dictGet r.files a).map md5

/-- A stand-in digest primitive used to evaluate the model at concrete
inputs. -/
def trivialDigest : FileData → String := fun _ => "d"

/-- A concrete git state: one local branch `main` of three commits, nothing
on the remote, no tracking refs, HEAD present. -/
def sampleGit : GitState := ⟨[("main", 3)], [], [], true⟩

/-- The same git state after the orphan dance created `barbarian`. -/
def sampleGitAfter : GitState := ⟨[("main", 3), ("barbarian", 1)], [], [], true⟩

/-- A concrete export directory with the three usual files and an existing
empty `export_source/` directory. -/
def sampleExport : ExportState :=
  ⟨[("conanfile.py", [1]), ("conanmanifest.txt", [2]), ("conandata.yml", [3])],
   some []⟩

/-- A concrete upload input over `sampleGit` and `sampleExport`, with
archive timestamp 100. -/
def sampleInput : UploadInput :=
  ⟨true, sampleGit, sampleExport, "abc123", "2021-06-01T00:00:00+0000", 100⟩

/-- An empty publish directory. -/
def emptyPublish : PublishDirState := ⟨[], none⟩

/-- The `files/` directory the model produces for `sampleExport` at archive
timestamp 100. -/
def sampleFilesDir : List (String × FileData) :=
  [("conanfile.py", FileData.bytes [1]),
   ("conanmanifest.txt", FileData.bytes [2]),
   ("conandata.yml", FileData.bytes [3]),
   ("conan_export.tgz", FileData.tgzOf 100 [("conandata.yml", [3])]),
   ("conan_sources.tgz", FileData.tgzOf 100 [])]

/-- The revision record the model produces for `sampleExport` under
`trivialDigest`. -/
def sampleRecord : RevisionRecord :=
  ⟨sampleFilesDir,
   [("conanfile.py", "d"), ("conanmanifest.txt", "d"), ("conandata.yml", "d"),
    ("conan_export.tgz", "d"), ("conan_sources.tgz", "d")],
   ["conanfile.py", "conanmanifest.txt", "conandata.yml", "conan_export.tgz",
    "conan_sources.tgz"]⟩

/-- The publish directory after uploading `sampleInput` into `emptyPublish`. -/
def sampleStateAfter : PublishDirState :=
  ⟨[("abc123", sampleRecord)], some ⟨"abc123", "2021-06-01T00:00:00+0000"⟩⟩

/-- A concrete export directory whose `export_source/` does not exist. -/
def noSourceExport : ExportState :=
  ⟨[("conanfile.py", [1]), ("conanmanifest.txt", [2])], none⟩

/-- A concrete upload input whose export has no `export_source/`. -/
def noSourceInput : UploadInput :=
  ⟨true, sampleGit, noSourceExport, "abc123", "2021-06-01T00:00:00+0000", 100⟩

/-- A concrete upload input with no configured `origin` remote. -/
def noRemoteInput : UploadInput :=
  ⟨false, sampleGit, sampleExport, "abc123", "2021-06-01T00:00:00+0000", 100⟩

/-- Two file contents agree up to the gzip-header timestamp: equal bytes for
plain files, equal entry lists for archives (creation times may differ). -/
def sameUpToTgzTime : FileData → FileData → Prop
  | FileData.bytes b1, FileData.bytes b2 => b1 = b2
  | FileData.tgzOf _ e1, FileData.tgzOf _ e2 => e1 = e2
  | _, _ => False

/-- A digest stand-in that, like MD5 of the real archive bytes, depends on
the timestamp embedded in the gzip header: archives created at different
times get different digests even for identical entries. -/
def headerDigest : FileData → String
  | FileData.bytes _ => "f"
  | FileData.tgzOf t _ => "t" ++ toString t

/-- A second upload of the same export and revision, one wall-clock unit
later: the git state already has the barbarian branch, `latest.json` gets a
new time, and the archives get gzip-header timestamp 101. -/
def secondPublishInput : UploadInput :=
  ⟨true, sampleGitAfter, sampleExport, "abc123", "2021-06-02T00:00:00+0000", 101⟩

/-- The revision record the first publish of `sampleExport` produces under
`headerDigest` at archive timestamp 100. -/
def headerFirstRecord : RevisionRecord :=
  ⟨[("conanfile.py", FileData.bytes [1]),
    ("conanmanifest.txt", FileData.bytes [2]),
    ("conandata.yml", FileData.bytes [3]),
    ("conan_export.tgz", FileData.tgzOf 100 [("conandata.yml", [3])]),
    ("conan_sources.tgz", FileData.tgzOf 100 [])],
   [("conanfile.py", "f"), ("conanmanifest.txt", "f"), ("conandata.yml", "f"),
    ("conan_export.tgz", "t100"), ("conan_sources.tgz", "t100")],
   ["conanfile.py", "conanmanifest.txt", "conandata.yml", "conan_export.tgz",
    "conan_sources.tgz"]⟩

/-- The publish directory after that first publish. -/
def headerFirstState : PublishDirState :=
  ⟨[("abc123", headerFirstRecord)], some ⟨"abc123", "2021-06-01T00:00:00+0000"⟩⟩

/-- The revision record the second publish produces under `headerDigest` at
archive timestamp 101: same names and entries, different archive bytes and
digests. -/
def headerSecondRecord : RevisionRecord :=
  ⟨[("conanfile.py", FileData.bytes [1]),
    ("conanmanifest.txt", FileData.bytes [2]),
    ("conandata.yml", FileData.bytes [3]),
    ("conan_export.tgz", FileData.tgzOf 101 [("conandata.yml", [3])]),
    ("conan_sources.tgz", FileData.tgzOf 101 [])],
   [("conanfile.py", "f"), ("conanmanifest.txt", "f"), ("conandata.yml", "f"),
    ("conan_export.tgz", "t101"), ("conan_sources.tgz", "t101")],
   ["conanfile.py", "conanmanifest.txt", "conandata.yml", "conan_export.tgz",
    "conan_sources.tgz"]⟩

/-- The publish directory after the second publish. -/
def headerSecondState : PublishDirState :=
  ⟨[("abc123", headerSecondRecord)], some ⟨"abc123", "2021-06-02T00:00:00+0000"⟩⟩

/-- A concrete parsed `conandata.yml` with two sections. -/
def conandataIn : List (String × List (String × Nat)) :=
  [("sources", [("1.0", 7)]), ("patches", [("2.0", 8)])]

/-- What the hook leaves of `conandataIn` when exporting version `1.0`. -/
def conandataOut : List (String × List (String × Nat)) :=
  [("sources", [("1.0", 7)])]

/-! Helper lemmas about association-list directories. -/

theorem dictGet_setEntry_self {β : Type} (l : List (String × β)) (k : String) (v : β) :
    dictGet (setEntry l k v) k = some v := by
  induction l with
  | nil => simp [setEntry, dictGet]
  | cons p rest ih =>
    by_cases h : p.1 = k
    · simp [setEntry, h, dictGet]
    · simp [setEntry, h, dictGet, ih]

theorem dictGet_setEntry_ne {β : Type} (l : List (String × β)) (k k2 : String) (v : β)
    (h : k2 ≠ k) : dictGet (setEntry l k v) k2 = dictGet l k2 := by
  induction l with
  | nil => simp [setEntry, dictGet, Ne.symm h]
  | cons p rest ih =>
    by_cases hp : p.1 = k
    · by_cases hq : p.1 = k2
      · exact absurd (hq.symm.trans hp) h
      · simp [setEntry, hp, dictGet, Ne.symm h, hq]
    · by_cases hq : p.1 = k2 <;> simp [setEntry, hp, hq, dictGet, ih, h]

theorem setEntry_setEntry {β : Type} (l : List (String × β)) (k : String) (v1 v2 : β) :
    setEntry (setEntry l k v1) k v2 = setEntry l k v2 := by
  induction l with
  | nil => simp [setEntry]
  | cons p rest ih =>
    by_cases hp : p.1 = k
    · simp [setEntry, hp]
    · simp [setEntry, hp, ih]

theorem mem_setEntry {β : Type} (l : List (String × β)) (k : String) (v : β)
    (q : String × β) (h : q ∈ setEntry l k v) : q = (k, v) ∨ q ∈ l := by
  induction l with
  | nil =>
    simp [setEntry] at h
    exact Or.inl h
  | cons p rest ih =>
    by_cases hp : p.1 = k
    · simp only [setEntry, hp, if_pos, List.mem_cons] at h
      rcases h with h | h
      · exact Or.inl h
      · exact Or.inr (List.mem_cons_of_mem _ h)
    · simp only [setEntry, hp, if_neg, ite_false, List.mem_cons] at h
      rcases h with h | h
      · exact Or.inr (by simp [h])
      · rcases ih h with h2 | h2
        · exact Or.inl h2
        · exact Or.inr (List.mem_cons_of_mem _ h2)

theorem dictGet_mem {β : Type} (l : List (String × β)) (k : String) (v : β)
    (h : dictGet l k = some v) : (k, v) ∈ l := by
  induction l with
  | nil => simp [dictGet] at h
  | cons p rest ih =>
    by_cases hp : p.1 = k
    · simp only [dictGet, hp, if_pos, Option.some.injEq] at h
      have hpv : p = (k, v) := by
        cases p
        simp only [Prod.mk.injEq]
        exact ⟨hp, h⟩
      simp [hpv]
    · simp only [dictGet, hp, ite_false] at h
      exact List.mem_cons_of_mem _ (ih h)

theorem dictGet_map {β γ : Type} (l : List (String × β)) (f : β → γ) (k : String) :
    dictGet (l.map fun p => (p.1, f p.2)) k = (dictGet l k).map f := by
  induction l with
  | nil => simp [dictGet]
  | cons p rest ih =>
    by_cases hp : p.1 = k <;> simp [dictGet, hp, ih]

theorem map_fst_pairMap {β γ : Type} (l : List (String × β)) (f : β → γ) :
    (l.map fun p => (p.1, f p.2)).map Prod.fst = l.map Prod.fst := by
  induction l with
  | nil => rfl
  | cons p rest ih => simp [ih]

/-! Helper lemmas about the branch bootstrap and the upload pipeline. -/

theorem fetchOrigin_hasHead (g : GitState) :
    (fetchOriginBarbarian g).hasHead = g.hasHead := by
  unfold fetchOriginBarbarian
  split <;> rfl

theorem branchFromOrigin_hasHead (g : GitState) :
    (branchFromOriginBarbarian g).hasHead = g.hasHead := by
  unfold branchFromOriginBarbarian
  split <;> rfl

theorem make_empty_branch_of_have (g : GitState) (b : String)
    (h : have_branch g b = true) : make_empty_branch g b = ([], Except.ok g) := by
  simp [make_empty_branch, h]

theorem make_empty_branch_ok_have_branch (g g2 : GitState) (b : String)
    (fx : List Effect) (h : make_empty_branch g b = (fx, Except.ok g2)) :
    have_branch g2 b = true := by
  simp only [make_empty_branch] at h
  by_cases h1 : have_branch g b = true
  · rw [if_pos h1] at h
    injection h with hfx hres
    injection hres with hg
    exact hg ▸ h1
  · rw [if_neg h1] at h
    by_cases h2 : have_branch (branchFromOriginBarbarian (fetchOriginBarbarian g)) b = true
    · rw [if_pos h2] at h
      injection h with hfx hres
      injection hres with hg
      exact hg ▸ h2
    · rw [if_neg h2] at h
      by_cases h3 : (branchFromOriginBarbarian (fetchOriginBarbarian g)).hasHead = true
      · rw [if_pos h3] at h
        injection h with hfx hres
        injection hres with hg
        rw [← hg]
        simp [have_branch, dictGet_setEntry_self]
      · rw [if_neg h3] at h
        injection h with hfx hres
        exact absurd hres (by simp)

theorem wf_setEntry {l : List (String × Nat)} {k : String} {v : Nat}
    (hl : ∀ p ∈ l, 1 ≤ p.2) (hv : 1 ≤ v) : ∀ p ∈ setEntry l k v, 1 ≤ p.2 := by
  intro p hp
  rcases mem_setEntry l k v p hp with h | h
  · rw [h]
    exact hv
  · exact hl p h

theorem fetch_remoteTracking_wf (g : GitState)
    (hr : ∀ p ∈ g.remoteBranches, 1 ≤ p.2)
    (ht : ∀ p ∈ g.remoteTracking, 1 ≤ p.2) :
    ∀ p ∈ (fetchOriginBarbarian g).remoteTracking, 1 ≤ p.2 := by
  cases hx : dictGet g.remoteBranches "barbarian" with
  | none => simpa [fetchOriginBarbarian, hx] using ht
  | some n =>
    simpa [fetchOriginBarbarian, hx] using
      wf_setEntry ht (hr _ (dictGet_mem _ _ _ hx))

theorem fetch_localBranches_eq (g : GitState) :
    (fetchOriginBarbarian g).localBranches = g.localBranches := by
  unfold fetchOriginBarbarian
  split <;> rfl

theorem branchFromOrigin_localBranches_wf (g : GitState)
    (hl : ∀ p ∈ g.localBranches, 1 ≤ p.2)
    (ht : ∀ p ∈ g.remoteTracking, 1 ≤ p.2) :
    ∀ p ∈ (branchFromOriginBarbarian g).localBranches, 1 ≤ p.2 := by
  cases hy : dictGet g.remoteTracking "barbarian" with
  | none => simpa [branchFromOriginBarbarian, hy] using hl
  | some n =>
    simpa [branchFromOriginBarbarian, hy] using
      wf_setEntry hl (ht _ (dictGet_mem _ _ _ hy))

theorem have_branch_after_fetch (g : GitState) (n : Nat)
    (h : dictGet g.remoteBranches "barbarian" = some n) :
    have_branch (branchFromOriginBarbarian (fetchOriginBarbarian g)) "barbarian" = true := by
  simp [fetchOriginBarbarian, h, branchFromOriginBarbarian, dictGet_setEntry_self,
    have_branch]

theorem command_upload_ok_intro (md5 : FileData → String) (inp : UploadInput)
    (prior : PublishDirState) (g : GitState) (befx : List Effect)
    (fd : List (String × FileData))
    (hrem : inp.hasOriginRemote = true)
    (hbr : make_empty_branch inp.git "barbarian" = (befx, Except.ok g))
    (hfd : buildFilesDir inp.tarTime inp.exportDir = Except.ok fd) :
    (command_upload md5 inp prior).2 =
      Except.ok (commitRevision md5 inp prior fd, g) := by
  simp [command_upload, hrem, hbr, hfd]

theorem command_upload_ok_elim (md5 : FileData → String) (inp : UploadInput)
    (prior st : PublishDirState) (g : GitState)
    (h : (command_upload md5 inp prior).2 = Except.ok (st, g)) :
    inp.hasOriginRemote = true ∧
    (make_empty_branch inp.git "barbarian").2 = Except.ok g ∧
    ∃ fd, buildFilesDir inp.tarTime inp.exportDir = Except.ok fd ∧
      st = commitRevision md5 inp prior fd := by
  cases hrem : inp.hasOriginRemote with
  | false => simp [command_upload, hrem] at h
  | true =>
    rcases hg : make_empty_branch inp.git "barbarian" with ⟨befx, res⟩
    cases res with
    | error m => simp [command_upload, hrem, hg] at h
    | ok g0 =>
      cases hfd : buildFilesDir inp.tarTime inp.exportDir with
      | error p => simp [command_upload, hrem, hg, hfd] at h
      | ok fd =>
        simp [command_upload, hrem, hg, hfd] at h
        exact ⟨rfl, by simp [hg, h.2], fd, rfl, h.1.symm⟩

theorem forall2_bytes_refl (l : List (String × Bytes)) :
    List.Forall₂ (fun p q => p.1 = q.1 ∧ sameUpToTgzTime p.2 q.2)
      (l.map fun p => (p.1, FileData.bytes p.2))
      (l.map fun p => (p.1, FileData.bytes p.2)) := by
  induction l with
  | nil => exact List.Forall₂.nil
  | cons p rest ih => exact List.Forall₂.cons ⟨rfl, rfl⟩ ih

theorem forall2_setEntry {β : Type} (R : β → β → Prop)
    (l1 l2 : List (String × β)) (k : String) (v1 v2 : β)
    (h : List.Forall₂ (fun p q => p.1 = q.1 ∧ R p.2 q.2) l1 l2) (hv : R v1 v2) :
    List.Forall₂ (fun p q => p.1 = q.1 ∧ R p.2 q.2)
      (setEntry l1 k v1) (setEntry l2 k v2) := by
  induction h with
  | nil => exact List.Forall₂.cons ⟨rfl, hv⟩ List.Forall₂.nil
  | @cons p q lr1 lr2 hpq hrest ih =>
    by_cases hp : p.1 = k
    · have hq : q.1 = k := hpq.1 ▸ hp
      simp only [setEntry, hp, hq, if_pos]
      exact List.Forall₂.cons ⟨rfl, hv⟩ hrest
    · have hq : ¬ q.1 = k := fun hh => hp (hpq.1.symm ▸ hh)
      simp only [setEntry, hp, hq, if_neg, ite_false]
      exact List.Forall₂.cons hpq ih

theorem forall2_map_fst {β : Type} (R : β → β → Prop) (l1 l2 : List (String × β))
    (h : List.Forall₂ (fun p q => p.1 = q.1 ∧ R p.2 q.2) l1 l2) :
    l1.map Prod.fst = l2.map Prod.fst := by
  induction h with
  | nil => rfl
  | cons hpq hrest ih => simp [hpq.1, ih]

/-! Claim theorems. -/

/-- C6: after every successful publish, `latest.json` at the
`(name, version)` level holds exactly the published revision and this run's
timestamp.  The theorem holds for every prior publish-directory state
`prior`, so no content of any prior `latest.json` is read, compared or
merged — the last writer always wins regardless of wall-clock ordering. -/
theorem upload_latest_overwrite (md5 : FileData → String) (inp : UploadInput)
    (prior st : PublishDirState) (g : GitState)
    (h : (command_upload md5 inp prior).2 = Except.ok (st, g)) :
    st.latest = some ⟨inp.revision, inp.now⟩ := by
  rcases command_upload_ok_elim md5 inp prior st g h with ⟨-, -, fd, -, hst⟩
  rw [hst]
  rfl

/-- Witness for C6 at a concrete upload. -/
theorem upload_latest_overwrite_witness :
    sampleStateAfter.latest = some ⟨sampleInput.revision, sampleInput.now⟩ :=
  upload_latest_overwrite trivialDigest sampleInput emptyPublish sampleStateAfter
    sampleGitAfter (by decide)

/-- C3: manifest completeness.  If every revision record of the prior
publish state enumerates the same names in `snapshot.json`, `files.json` and
`files/`, then after a successful upload every committed revision still
does; in particular the freshly written revision does, since both manifests
are generated from one listing of `files/`. -/
theorem upload_manifest_complete (md5 : FileData → String) (inp : UploadInput)
    (prior st : PublishDirState) (g : GitState)
    (hprior : ∀ p ∈ prior.revisions, manifestComplete p.2)
    (h : (command_upload md5 inp prior).2 = Except.ok (st, g)) :
    ∀ p ∈ st.revisions, manifestComplete p.2 := by
  rcases command_upload_ok_elim md5 inp prior st g h with ⟨-, -, fd, -, hst⟩
  rw [hst]
  intro p hp
  rcases mem_setEntry _ _ _ p hp with hnew | hold
  · rw [hnew]
    intro a
    constructor
    · simp [writeManifests, map_fst_pairMap]
    · simp [writeManifests]
  · exact hprior p hold

/-- Witness for C3 at a concrete upload and artifact name. -/
theorem upload_manifest_complete_witness :
    ("conan_export.tgz" ∈ sampleRecord.snapshot.map Prod.fst ↔
      "conan_export.tgz" ∈ sampleRecord.filesJson) ∧
    ("conan_export.tgz" ∈ sampleRecord.filesJson ↔
      "conan_export.tgz" ∈ sampleRecord.files.map Prod.fst) :=
  upload_manifest_complete trivialDigest sampleInput emptyPublish sampleStateAfter
    sampleGitAfter (by intro p hp; simp [emptyPublish] at hp) (by decide)
    ("abc123", sampleRecord) (by decide) "conan_export.tgz"

/-- C4: digest correctness.  If every revision record of the prior publish
state maps each artifact to the digest of the bytes of that artifact in its
`files/` directory, then after a successful upload every committed revision
still does; the freshly written revision does because `snapshot.json` is
computed by reading each file of `files/` at manifest-writing time. -/
theorem upload_digest_correct (md5 : FileData → String) (inp : UploadInput)
    (prior st : PublishDirState) (g : GitState)
    (hprior : ∀ p ∈ prior.revisions, digestCorrect md5 p.2)
    (h : (command_upload md5 inp prior).2 = Except.ok (st, g)) :
    ∀ p ∈ st.revisions, digestCorrect md5 p.2 := by
  rcases command_upload_ok_elim md5 inp prior st g h with ⟨-, -, fd, -, hst⟩
  rw [hst]
  intro p hp
  rcases mem_setEntry _ _ _ p hp with hnew | hold
  · rw [hnew]
    intro a
    simp [writeManifests, dictGet_map]
  · exact hprior p hold

/-- Witness for C4 at a concrete upload and artifact name. -/
theorem upload_digest_correct_witness :
    dictGet sampleRecord.snapshot "conanfile.py" =
      (dictGet sampleRecord.files "conanfile.py").map trivialDigest :=
  upload_digest_correct trivialDigest sampleInput emptyPublish sampleStateAfter
    sampleGitAfter (by intro p hp; simp [emptyPublish] at hp) (by decide)
    ("abc123", sampleRecord) (by decide) "conanfile.py"

/-- C5: every successful upload commits a revision whose `files/` holds a
`conan_export.tgz` archive containing the entry `conandata.yml` exactly when
`export/conandata.yml` exists; when it is absent the archive is still
created, with zero entries, and no error is raised. -/
theorem upload_conan_export_tgz_iff (md5 : FileData → String) (inp : UploadInput)
    (prior st : PublishDirState) (g : GitState)
    (h : (command_upload md5 inp prior).2 = Except.ok (st, g)) :
    ∃ record entries,
      dictGet st.revisions inp.revision = some record ∧
      dictGet record.files "conan_export.tgz" =
        some (FileData.tgzOf inp.tarTime entries) ∧
      (∀ cs, (("conandata.yml", cs) ∈ entries ↔
        dictGet inp.exportDir.exportFiles "conandata.yml" = some cs)) ∧
      (dictGet inp.exportDir.exportFiles "conandata.yml" = none → entries = []) := by
  rcases command_upload_ok_elim md5 inp prior st g h with ⟨-, -, fd, hfd, hst⟩
  cases hsrc : inp.exportDir.exportSource with
  | none =>
    rw [buildFilesDir, hsrc] at hfd
    cases hfd
  | some srcs =>
    simp only [buildFilesDir, hsrc] at hfd
    injection hfd with hfd2
    refine ⟨⟨fd, (writeManifests md5 fd).1, (writeManifests md5 fd).2⟩,
      conanExportEntries inp.exportDir, ?_, ?_, ?_, ?_⟩
    · rw [hst]
      exact dictGet_setEntry_self _ _ _
    · show dictGet fd "conan_export.tgz" = _
      rw [← hfd2]
      rw [dictGet_setEntry_ne _ _ _ _ (by decide)]
      exact dictGet_setEntry_self _ _ _
    · intro cs
      cases hcd : dictGet inp.exportDir.exportFiles "conandata.yml" with
      | none => simp [conanExportEntries, hcd]
      | some c0 => simp [conanExportEntries, hcd, eq_comm]
    · intro hnone
      simp [conanExportEntries, hnone]

/-- Witness for C5 at a concrete upload. -/
theorem upload_conan_export_tgz_iff_witness :
    ∃ record entries,
      dictGet sampleStateAfter.revisions sampleInput.revision = some record ∧
      dictGet record.files "conan_export.tgz" =
        some (FileData.tgzOf sampleInput.tarTime entries) ∧
      (∀ cs, (("conandata.yml", cs) ∈ entries ↔
        dictGet sampleInput.exportDir.exportFiles "conandata.yml" = some cs)) ∧
      (dictGet sampleInput.exportDir.exportFiles "conandata.yml" = none →
        entries = []) :=
  upload_conan_export_tgz_iff trivialDigest sampleInput emptyPublish sampleStateAfter
    sampleGitAfter (by decide)

/-- C2 counterexample: publishing the same `(coordinate, revision)` twice is
not byte-identical.  At a concrete export, a first publish with archive
timestamp 100 and a second one of the same revision one unit later (archive
timestamp 101) both succeed, but the committed revision records differ: the
archives of the second run carry the new gzip-header timestamp, so their
bytes — and, under a digest that depends on those bytes, the `snapshot.json`
values — differ in exactly the two `.tgz` artifacts, while the name sets
still agree. -/
theorem upload_second_publish_not_byte_identical :
    (command_upload headerDigest sampleInput emptyPublish).2 =
      Except.ok (headerFirstState, sampleGitAfter) ∧
    (command_upload headerDigest secondPublishInput headerFirstState).2 =
      Except.ok (headerSecondState, sampleGitAfter) ∧
    dictGet headerFirstState.revisions "abc123" = some headerFirstRecord ∧
    dictGet headerSecondState.revisions "abc123" = some headerSecondRecord ∧
    headerSecondRecord.files ≠ headerFirstRecord.files ∧
    headerSecondRecord.snapshot ≠ headerFirstRecord.snapshot ∧
    headerSecondRecord.filesJson = headerFirstRecord.filesJson := by decide

/-- C2 (amended): publishing the same `(coordinate, revision)` twice still
removes the revision directory wholesale and recreates it, and the second
publish succeeds with the same artifact names (`files.json` and the
`snapshot.json` key set unchanged), the same archive entries and the same
bytes for every non-archive file; but each archive's gzip header embeds the
wall-clock time of the run that wrote it, so `files/` (and hence the
digests in `snapshot.json`) are byte-identical exactly when the two runs
share that timestamp, and `latest.json` keeps the same `revision` with the
new `time`. -/
theorem upload_idempotent_up_to_archive_time (md5 : FileData → String)
    (inp : UploadInput) (prior st1 : PublishDirState) (g1 : GitState)
    (t2 : String) (tar2 : Nat)
    (h : (command_upload md5 inp prior).2 = Except.ok (st1, g1)) :
    ∃ st2 rec1 rec2,
      (command_upload md5 { inp with git := g1, now := t2, tarTime := tar2 }
          st1).2 = Except.ok (st2, g1) ∧
      st1.latest = some ⟨inp.revision, inp.now⟩ ∧
      st2.latest = some ⟨inp.revision, t2⟩ ∧
      st2.revisions = setEntry st1.revisions inp.revision rec2 ∧
      dictGet st1.revisions inp.revision = some rec1 ∧
      dictGet st2.revisions inp.revision = some rec2 ∧
      rec2.filesJson = rec1.filesJson ∧
      rec2.snapshot.map Prod.fst = rec1.snapshot.map Prod.fst ∧
      List.Forall₂ (fun p q => p.1 = q.1 ∧ sameUpToTgzTime p.2 q.2)
        rec2.files rec1.files ∧
      (tar2 = inp.tarTime → st2.revisions = st1.revisions) := by
  rcases command_upload_ok_elim md5 inp prior st1 g1 h with ⟨hrem, hbr, fd1, hfd1, hst1⟩
  have hhave : have_branch g1 "barbarian" = true := by
    rcases hg : make_empty_branch inp.git "barbarian" with ⟨befx, res⟩
    rw [hg] at hbr
    cases res with
    | error m => simp at hbr
    | ok g0 =>
      simp at hbr
      exact hbr ▸ make_empty_branch_ok_have_branch inp.git g0 "barbarian" befx hg
  cases hsrc : inp.exportDir.exportSource with
  | none =>
    rw [buildFilesDir, hsrc] at hfd1
    cases hfd1
  | some srcs =>
    simp only [buildFilesDir, hsrc] at hfd1
    injection hfd1 with hfd1eq
    set fd2 := setEntry
      (setEntry (copyExportToFiles inp.exportDir) "conan_export.tgz"
        (FileData.tgzOf tar2 (conanExportEntries inp.exportDir)))
      "conan_sources.tgz" (FileData.tgzOf tar2 srcs) with hfd2def
    have hfd2 : buildFilesDir tar2 inp.exportDir = Except.ok fd2 := by
      simp [buildFilesDir, hsrc, hfd2def]
    have hforall : List.Forall₂ (fun p q => p.1 = q.1 ∧ sameUpToTgzTime p.2 q.2)
        fd2 fd1 := by
      rw [← hfd1eq, hfd2def]
      exact forall2_setEntry _ _ _ _ _ _
        (forall2_setEntry _ _ _ _ _ _ (forall2_bytes_refl _) rfl) rfl
    refine ⟨commitRevision md5 { inp with git := g1, now := t2, tarTime := tar2 }
        st1 fd2,
      ⟨fd1, (writeManifests md5 fd1).1, (writeManifests md5 fd1).2⟩,
      ⟨fd2, (writeManifests md5 fd2).1, (writeManifests md5 fd2).2⟩,
      ?_, ?_, rfl, rfl, ?_, ?_, ?_, ?_, ?_, ?_⟩
    · exact command_upload_ok_intro md5 _ st1 g1 [] fd2 hrem
        (make_empty_branch_of_have g1 "barbarian" hhave) hfd2
    · rw [hst1]
      rfl
    · rw [hst1]
      exact dictGet_setEntry_self _ _ _
    · exact dictGet_setEntry_self _ _ _
    · exact forall2_map_fst _ _ _ hforall
    · show ((writeManifests md5 fd2).1).map Prod.fst =
        ((writeManifests md5 fd1).1).map Prod.fst
      simp only [writeManifests, map_fst_pairMap]
      exact forall2_map_fst _ _ _ hforall
    · exact hforall
    · intro htar
      have hfd12 : fd2 = fd1 := by
        rw [hfd2def, htar, hfd1eq]
      simp only [commitRevision, hfd12, hst1]
      exact setEntry_setEntry _ _ _ _

/-- Witness for the amended C2 at a concrete pair of uploads of the same
revision, one wall-clock unit apart. -/
theorem upload_idempotent_up_to_archive_time_witness :
    ∃ st2 rec1 rec2,
      (command_upload trivialDigest secondPublishInput sampleStateAfter).2 =
        Except.ok (st2, sampleGitAfter) ∧
      sampleStateAfter.latest = some ⟨sampleInput.revision, sampleInput.now⟩ ∧
      st2.latest = some ⟨sampleInput.revision, "2021-06-02T00:00:00+0000"⟩ ∧
      st2.revisions = setEntry sampleStateAfter.revisions sampleInput.revision rec2 ∧
      dictGet sampleStateAfter.revisions sampleInput.revision = some rec1 ∧
      dictGet st2.revisions sampleInput.revision = some rec2 ∧
      rec2.filesJson = rec1.filesJson ∧
      rec2.snapshot.map Prod.fst = rec1.snapshot.map Prod.fst ∧
      List.Forall₂ (fun p q => p.1 = q.1 ∧ sameUpToTgzTime p.2 q.2)
        rec2.files rec1.files ∧
      (101 = sampleInput.tarTime → st2.revisions = sampleStateAfter.revisions) :=
  upload_idempotent_up_to_archive_time trivialDigest sampleInput emptyPublish
    sampleStateAfter sampleGitAfter "2021-06-02T00:00:00+0000" 101 (by decide)

/-- C1 counterexample: at a concrete export directory whose `export_source/`
does not exist (with an `origin` remote configured and a usable git state),
the upload does not complete without error: `os.listdir(export_source)`
raises `FileNotFoundError`, because the source has no existence check before
the `conan_sources.tgz` generation loop. -/
theorem upload_missing_export_source_errors_concrete :
    (command_upload trivialDigest noSourceInput emptyPublish).2 =
      Except.error (UploadError.fileNotFound "export_source") := by decide

/-- C1 (amended): for every upload whose export directory has no
`export_source/`, the `conan_sources.tgz` step is not skipped — the run
aborts with the uncaught `FileNotFoundError` from `os.listdir`; no revision
is committed (no `gitCommit`/`gitPush` effect occurs) and only the worktree
cleanup of the `finally` block still runs. -/
theorem upload_missing_export_source_aborts (md5 : FileData → String)
    (inp : UploadInput) (prior : PublishDirState) (g : GitState)
    (befx : List Effect)
    (hrem : inp.hasOriginRemote = true)
    (hbr : make_empty_branch inp.git "barbarian" = (befx, Except.ok g))
    (hsrc : inp.exportDir.exportSource = none) :
    command_upload md5 inp prior =
      (Effect.remoteShow :: befx ++ [Effect.worktreeAdd, Effect.worktreeRemove],
       Except.error (UploadError.fileNotFound "export_source")) := by
  have hfd : buildFilesDir inp.tarTime inp.exportDir = Except.error "export_source" := by
    simp [buildFilesDir, hsrc]
  simp [command_upload, hrem, hbr, hfd]

/-- Witness for the amended C1 at a concrete input. -/
theorem upload_missing_export_source_aborts_witness :
    command_upload trivialDigest noSourceInput emptyPublish =
      (Effect.remoteShow ::
         [Effect.fetchBarbarian, Effect.branchFromOrigin, Effect.orphanDance] ++
         [Effect.worktreeAdd, Effect.worktreeRemove],
       Except.error (UploadError.fileNotFound "export_source")) :=
  upload_missing_export_source_aborts trivialDigest noSourceInput emptyPublish
    sampleGitAfter [Effect.fetchBarbarian, Effect.branchFromOrigin, Effect.orphanDance]
    rfl (by decide) rfl

/-- C8: when no git remote named `origin` is configured, the publish fails
with the fatal `UsageError` message before any branch or working-copy
manipulation (the effect trace is exactly the failed remote check), the top
level prints the reason and exits with code 1, and nothing is retried. -/
theorem upload_requires_origin_remote (md5 : FileData → String)
    (inp : UploadInput) (prior : PublishDirState)
    (h : inp.hasOriginRemote = false) :
    command_upload md5 inp prior =
      ([Effect.remoteShow], Except.error (UploadError.usage noOriginRemoteMsg)) ∧
    upload_main md5 inp prior = (1, some noOriginRemoteMsg) ∧
    ∀ e ∈ (command_upload md5 inp prior).1, branchOrWorktreeEffect e = false := by
  have h1 : command_upload md5 inp prior =
      ([Effect.remoteShow], Except.error (UploadError.usage noOriginRemoteMsg)) := by
    simp [command_upload, h]
  refine ⟨h1, ?_, ?_⟩
  · simp [upload_main, h1]
  · rw [h1]
    intro e he
    simp at he
    rw [he]
    rfl

/-- Witness for C8 at a concrete input with no `origin` remote. -/
theorem upload_requires_origin_remote_witness :
    command_upload trivialDigest noRemoteInput emptyPublish =
      ([Effect.remoteShow], Except.error (UploadError.usage noOriginRemoteMsg)) ∧
    upload_main trivialDigest noRemoteInput emptyPublish =
      (1, some noOriginRemoteMsg) ∧
    ∀ e ∈ (command_upload trivialDigest noRemoteInput emptyPublish).1,
      branchOrWorktreeEffect e = false :=
  upload_requires_origin_remote trivialDigest noRemoteInput emptyPublish rfl

/-- C7: branch bootstrap converges.  From every starting git state whose
branch refs each reach at least one commit — branch absent everywhere (given
the repo has a HEAD commit), branch present only on the remote, or branch
already local — `make_barbarian_branch` succeeds and afterwards the local
`barbarian` branch exists and is non-empty (reaches at least one commit).
The branch-absent-everywhere case succeeds even though both the fetch and
the local-tracking-branch creation fail there: those failures are swallowed
and execution falls through to the orphan-branch dance. -/
theorem make_barbarian_branch_converges (g : GitState)
    (hl : ∀ p ∈ g.localBranches, 1 ≤ p.2)
    (hr : ∀ p ∈ g.remoteBranches, 1 ≤ p.2)
    (ht : ∀ p ∈ g.remoteTracking, 1 ≤ p.2)
    (h : g.hasHead = true ∨ have_branch g "barbarian" = true ∨
         (dictGet g.remoteBranches "barbarian").isSome = true) :
    ∃ g2 n, (make_barbarian_branch g).2 = Except.ok g2 ∧
      dictGet g2.localBranches "barbarian" = some n ∧ 1 ≤ n := by
  simp only [make_barbarian_branch, make_empty_branch]
  by_cases h1 : have_branch g "barbarian" = true
  · rw [if_pos h1]
    rcases Option.isSome_iff_exists.mp h1 with ⟨n, hn⟩
    exact ⟨g, n, rfl, hn, hl _ (dictGet_mem _ _ _ hn)⟩
  · rw [if_neg h1]
    by_cases h2 :
        have_branch (branchFromOriginBarbarian (fetchOriginBarbarian g)) "barbarian" = true
    · rw [if_pos h2]
      rcases Option.isSome_iff_exists.mp h2 with ⟨n, hn⟩
      refine ⟨_, n, rfl, hn, ?_⟩
      have hwf2 := branchFromOrigin_localBranches_wf (fetchOriginBarbarian g)
        (by rw [fetch_localBranches_eq]; exact hl)
        (fetch_remoteTracking_wf g hr ht)
      exact hwf2 _ (dictGet_mem _ _ _ hn)
    · have h3 : (branchFromOriginBarbarian (fetchOriginBarbarian g)).hasHead = true := by
        rcases h with hh | hh | hh
        · rw [branchFromOrigin_hasHead, fetchOrigin_hasHead]
          exact hh
        · exact absurd hh h1
        · rcases Option.isSome_iff_exists.mp hh with ⟨n, hn⟩
          exact absurd (have_branch_after_fetch g n hn) h2
      rw [if_neg h2, if_pos h3]
      exact ⟨_, 1, rfl, dictGet_setEntry_self _ _ _, le_refl 1⟩

/-- Witness for C7 at a concrete state with no `barbarian` branch anywhere
and a HEAD commit present. -/
theorem make_barbarian_branch_converges_witness :
    ∃ g2 n, (make_barbarian_branch sampleGit).2 = Except.ok g2 ∧
      dictGet g2.localBranches "barbarian" = some n ∧ 1 ≤ n :=
  make_barbarian_branch_converges sampleGit (by decide) (by decide) (by decide)
    (Or.inl rfl)

/-- C9: for every reference whose part after the first `@` parses (the form
the CLI documents), the derived user and channel each default to the
sentinel `"_"`: user is `"_"` whenever segment 0 of that part split on `/`
is empty, channel is `"_"` whenever segment 1 is missing or empty; nonempty
segments are taken verbatim. -/
theorem recipe_user_and_channel_defaults (reference u c : String)
    (uc : List Char)
    (h : recipe_user_and_channel reference = some (u, c))
    (huc : afterFirstAtAux reference.toList = some uc) :
    (∀ useg, (splitList '/' uc).head? = some useg →
       (useg.length = 0 → u = "_") ∧ (0 < useg.length → u = String.mk useg)) ∧
    ((splitList '/' uc).length ≤ 1 → c = "_") ∧
    (∀ cseg, (splitList '/' uc)[1]? = some cseg →
       (cseg.length = 0 → c = "_") ∧ (0 < cseg.length → c = String.mk cseg)) := by
  simp only [recipe_user_and_channel, huc] at h
  cases hsp : splitList '/' uc with
  | nil =>
    simp only [hsp] at h
    injection h with h2
    injection h2 with hu hc
    refine ⟨?_, ?_, ?_⟩
    · intro useg hx
      simp at hx
    · intro _
      exact hc.symm
    · intro cseg hx
      simp at hx
  | cons a tail =>
    cases tail with
    | nil =>
      simp only [hsp] at h
      injection h with h2
      injection h2 with hu hc
      refine ⟨?_, ?_, ?_⟩
      · intro useg hx
        simp only [List.head?_cons, Option.some.injEq] at hx
        subst hx
        constructor
        · intro hlen
          rw [← hu, if_neg (by omega)]
        · intro hlen
          rw [← hu, if_pos hlen]
      · intro _
        exact hc.symm
      · intro cseg hx
        simp at hx
    | cons c0 t2 =>
      simp only [hsp] at h
      injection h with h2
      injection h2 with hu hc
      refine ⟨?_, ?_, ?_⟩
      · intro useg hx
        simp only [List.head?_cons, Option.some.injEq] at hx
        subst hx
        constructor
        · intro hlen
          rw [← hu, if_neg (by omega)]
        · intro hlen
          rw [← hu, if_pos hlen]
      · intro hlen
        simp at hlen
      · intro cseg hx
        simp only [List.getElem?_cons_succ, List.getElem?_cons_zero,
          Option.some.injEq] at hx
        subst hx
        constructor
        · intro hlen
          rw [← hc, if_neg (by omega)]
        · intro hlen
          rw [← hc, if_pos hlen]

/-- Witness for C9 at the reference `zlib/1.3@`, which omits both user and
channel: both default to the sentinel. -/
theorem recipe_user_and_channel_defaults_witness :
    (∀ useg, (splitList '/' ([] : List Char)).head? = some useg →
       (useg.length = 0 → "_" = "_") ∧
       (0 < useg.length → "_" = String.mk useg)) ∧
    ((splitList '/' ([] : List Char)).length ≤ 1 → "_" = "_") ∧
    (∀ cseg, (splitList '/' ([] : List Char))[1]? = some cseg →
       (cseg.length = 0 → "_" = "_") ∧
       (0 < cseg.length → "_" = String.mk cseg)) :=
  recipe_user_and_channel_defaults "zlib/1.3@" "_" "_" [] (by decide) (by decide)

/-- C10: the `post_export` hook is a pure filter on the parsed
`conandata.yml`: when the file is missing nothing happens; otherwise a
section name occurs in the output exactly when some section of that name in
the input has the exported version among its keys, and every output section
maps exactly that one version to its original value.  All other versions and
sections are dropped. -/
theorem post_export_filters_conandata {α : Type} (version : String)
    (input out : List (String × List (String × α)))
    (h : post_export version (some input) = some out) :
    post_export version (none : Option (List (String × List (String × α)))) =
      none ∧
    (∀ s, (∃ m, (s, m) ∈ out) ↔
      (∃ m, (s, m) ∈ input ∧ (dictGet m version).isSome)) ∧
    (∀ s msub, (s, msub) ∈ out →
      ∃ m v, (s, m) ∈ input ∧ dictGet m version = some v ∧
        msub = [(version, v)]) := by
  simp only [post_export, Option.some.injEq] at h
  subst h
  refine ⟨rfl, ?_, ?_⟩
  · intro s
    constructor
    · rintro ⟨m, hm⟩
      rw [List.mem_filterMap] at hm
      obtain ⟨⟨a1, a2⟩, ha, hfa⟩ := hm
      cases hv : dictGet a2 version with
      | none => simp [hv] at hfa
      | some v =>
        simp only [hv, Option.some.injEq, Prod.mk.injEq] at hfa
        obtain ⟨ha1, hm2⟩ := hfa
        subst ha1
        exact ⟨a2, ha, by rw [hv]; rfl⟩
    · rintro ⟨m, hm, hsome⟩
      rcases Option.isSome_iff_exists.mp hsome with ⟨v, hv⟩
      refine ⟨[(version, v)], ?_⟩
      rw [List.mem_filterMap]
      exact ⟨(s, m), hm, by simp [hv]⟩
  · intro s msub hmem
    rw [List.mem_filterMap] at hmem
    obtain ⟨⟨a1, a2⟩, ha, hfa⟩ := hmem
    cases hv : dictGet a2 version with
    | none => simp [hv] at hfa
    | some v =>
      simp only [hv, Option.some.injEq, Prod.mk.injEq] at hfa
      obtain ⟨ha1, hm2⟩ := hfa
      subst ha1
      exact ⟨a2, v, ha, hv, hm2.symm⟩

/-- Witness for C10 at a concrete two-section `conandata.yml` and version. -/
theorem post_export_filters_conandata_witness :
    post_export "1.0" (none : Option (List (String × List (String × Nat)))) =
      none ∧
    (∀ s, (∃ m, (s, m) ∈ conandataOut) ↔
      (∃ m, (s, m) ∈ conandataIn ∧ (dictGet m "1.0").isSome)) ∧
    (∀ s msub, (s, msub) ∈ conandataOut →
      ∃ m v, (s, m) ∈ conandataIn ∧ dictGet m "1.0" = some v ∧
        msub = [("1.0", v)]) :=
  post_export_filters_conandata "1.0" conandataIn conandataOut (by decide)

end Barbarian
